import Mathlib

/-!
Verification of the session data engine of the Devcon 2024 schedule
application (`src/components/ScheduleApp.jsx`).

The diff routine in `fetchData` compares sessions with `JSON.stringify`,
so for that part sessions are modelled as JSON values (`Json`), where the
order of object keys is observable.  The search index, filter pipeline,
grouping engine and bookmark toggle operate on the fields of a session
record, so for those parts sessions are modelled as a `Session` structure.
-/

/-- JSON values as delivered by `JSON.parse`: object fields keep the
order in which they appear in the serialized text. -/
inductive Json where
  | jnull : Json
  | jbool : Bool → Json
  | jnum : Int → Json
  | jstr : String → Json
  | jarr : List Json → Json
  | jobj : List (String × Json) → Json

mutual

/-- Structural equality of JSON values (order-sensitive everywhere,
matching JavaScript strict equality on primitive values). -/
def jsonBEq : Json → Json → Bool
  | .jnull, .jnull => true
  | .jbool u, .jbool w => u == w
  | .jnum u, .jnum w => u == w
  | .jstr u, .jstr w => u == w
  | .jarr u, .jarr w => jsonArrBEq u w
  | .jobj u, .jobj w => jsonObjBEq u w
  | _, _ => false

def jsonArrBEq : List Json → List Json → Bool
  | [], [] => true
  | u :: us, w :: ws => jsonBEq u w && jsonArrBEq us ws
  | _, _ => false

def jsonObjBEq : List (String × Json) → List (String × Json) → Bool
  | [], [] => true
  | (ku, vu) :: us, (kw, vw) :: ws => ku == kw && jsonBEq vu vw && jsonObjBEq us ws
  | _, _ => false

end

instance : BEq Json := ⟨jsonBEq⟩

mutual

/-- Model of `JSON.stringify`: deterministic serialization that writes
object fields in their stored order. -/
def stringify : Json → String
  | .jnull => "null"
  | .jbool true => "true"
  | .jbool false => "false"
  | .jnum n => toString n
  | .jstr s => "\x22" ++ s ++ "\x22"
  | .jarr xs => "[" ++ stringifyArr xs ++ "]"
  | .jobj fs => "\x7b" ++ stringifyObj fs ++ "\x7d"

def stringifyArr : List Json → String
  | [] => ""
  | [x] => stringify x
  | x :: y :: xs => stringify x ++ "," ++ stringifyArr (y :: xs)

def stringifyObj : List (String × Json) → String
  | [] => ""
  | [(k, v)] => "\x22" ++ k ++ "\x22:" ++ stringify v
  | (k, v) :: g :: fs => "\x22" ++ k ++ "\x22:" ++ stringify v ++ "," ++ stringifyObj (g :: fs)

end

/-- Lexicographic comparison of key characters (used only to define the
canonical form of a JSON value). -/
def charsLt : List Char → List Char → Bool
  | _, [] => false
  | [], _ :: _ => true
  | a :: as, b :: bs =>
    if a.toNat < b.toNat then true
    else if b.toNat < a.toNat then false
    else charsLt as bs

/-- Lexicographic comparison of object keys. -/
def keyLt (a b : String) : Bool := charsLt a.data b.data

/-- Insert a field into a key-sorted field list (used only to define the
canonical form of a JSON value). -/
def insertField (f : String × Json) : List (String × Json) → List (String × Json)
  | [] => [f]
  | g :: gs => if keyLt f.1 g.1 then f :: g :: gs else g :: insertField f gs

/-- Sort object fields by key (insertion sort). -/
def sortFields : List (String × Json) → List (String × Json)
  | [] => []
  | f :: fs => insertField f (sortFields fs)

mutual

/-- Canonical structural form of a JSON value: object keys sorted
recursively, so two values have the same canonical form exactly when they
carry the same structural content irrespective of key order. -/
def canon : Json → Json
  | .jnull => .jnull
  | .jbool b => .jbool b
  | .jnum n => .jnum n
  | .jstr s => .jstr s
  | .jarr xs => .jarr (canonArr xs)
  | .jobj fs => .jobj (sortFields (canonObj fs))

def canonArr : List Json → List Json
  | [] => []
  | x :: xs => canon x :: canonArr xs

def canonObj : List (String × Json) → List (String × Json)
  | [] => []
  | (k, v) :: fs => (k, canon v) :: canonObj fs

end

/-- Reading `session.id` from a raw JSON session record. -/
def getId : Json → Option Json
  | .jobj fs => List.lookup "id" fs
  | _ => none

/-- Classification of one freshly fetched session against the previous
session list, as computed inside `fetchData`. -/
inductive SessionClass where
  | added : SessionClass
  | modified : SessionClass
  | unchanged : SessionClass
deriving DecidableEq

/-- The per-session classification of the diff in `fetchData`: look up the
old session with the same `id`; a missing one counts as added, one whose
`JSON.stringify` serialization differs counts as modified, the rest as
unchanged. -/
def classifySession (oldSessions : List Json) (session : Json) : SessionClass :=
  match oldSessions.find? (fun s => getId s == getId session) with
  | none => .added
  | some existingSession =>
    if stringify existingSession ≠ stringify session then .modified else .unchanged

/-- The `{added, modified, unchanged}` counters shown in the update
dialog. -/
structure UpdateStats where
  added : Nat
  modified : Nat
  unchanged : Nat
deriving DecidableEq

/-- The counting loop of the diff in `fetchData`. -/
def computeStats (oldSessions newSessions : List Json) : UpdateStats :=
  newSessions.foldl
    (fun stats session =>
      match classifySession oldSessions session with
      | .added => { stats with added := stats.added + 1 }
      | .modified => { stats with modified := stats.modified + 1 }
      | .unchanged => { stats with unchanged := stats.unchanged + 1 })
    { added := 0, modified := 0, unchanged := 0 }

/-- The component state touched by `fetchData`: the held session list, the
visible filtered list, the update statistics and dialog flag, the loading
flags, and the filter selections. -/
structure AppState where
  sessions : List Json
  filteredSessions : List Json
  updateStats : UpdateStats
  isUpdateDialogOpen : Bool
  isLoading : Bool
  isRefreshing : Bool
  searchTerm : String
  selectedDay : String
  selectedTrack : String
  selectedRoom : String

/-- State transition of `fetchData`: `fetchResult` is `some newSessions`
when the fetch and JSON parse succeed and `none` when either throws.  On
success the diff runs only when the held list is non-empty, then the
session list and the visible filtered list are replaced; on failure only
the loading flags are reset in the `finally` block. -/
def fetchData (st : AppState) (showRefreshing : Bool) (fetchResult : Option (List Json)) : AppState :=
  let st := if showRefreshing then { st with isRefreshing := true } else { st with isLoading := true }
  match fetchResult with
  | none => { st with isLoading := false, isRefreshing := false }
  | some newSessions =>
    let st :=
      if st.sessions.length > 0 then
        { st with
            updateStats := computeStats st.sessions newSessions,
            isUpdateDialogOpen := true }
      else st
    { st with
        sessions := newSessions,
        filteredSessions := newSessions,
        isLoading := false,
        isRefreshing := false }

/-- One speaker of a session. -/
structure Speaker where
  id : String
  name : String
  avatar : Option String
deriving DecidableEq

/-- The room of a session slot. -/
structure Room where
  name : String
deriving DecidableEq

/-- A session record as consumed by the search index, filter pipeline and
grouping engine.  `slot_start` and `slot_end` are the timestamps obtained
from `new Date(...)` (epoch milliseconds); optional fields that may be
absent from the payload are `Option`s. -/
structure Session where
  id : String
  title : String
  description : String
  track : Option String
  slot_start : Int
  slot_end : Int
  slot_room : Option Room
  speakers : Option (List Speaker)
  resources_presentation : Option String
  resources_slides : Option String
deriving DecidableEq

/-- A session together with its derived `searchText` blob. -/
structure IndexedSession where
  toSession : Session
  searchText : String
deriving DecidableEq

/-- Model of JavaScript `s.toLowerCase()`: lower each character. -/
def jsToLowerCase (s : String) : String := ⟨s.data.map Char.toLower⟩

/-- Model of JavaScript `array.join(sep)`. -/
def jsJoin (sep : String) : List String → String
  | [] => ""
  | [x] => x
  | x :: y :: xs => x ++ sep ++ jsJoin sep (y :: xs)

/-- The `searchText` built in `createSearchIndex`: lower-cased title,
description, track (`track || ''`) and space-joined lower-cased speaker
names (`speakers || []`), concatenated with single spaces. -/
def buildSearchText (session : Session) : String :=
  jsToLowerCase session.title ++ " " ++
  jsToLowerCase session.description ++ " " ++
  jsToLowerCase (session.track.getD "") ++ " " ++
  jsJoin " " ((session.speakers.getD []).map (fun s => jsToLowerCase s.name))

/-- `createSearchIndex`: map each session to itself plus its
`searchText`. -/
def createSearchIndex (sessions : List Session) : List IndexedSession :=
  sessions.map (fun session => { toSession := session, searchText := buildSearchText session })

/-- Substring test on character lists (model of `String.includes`). -/
def charsContain (needle : List Char) : List Char → Bool
  | [] => needle.isPrefixOf []
  | c :: cs => needle.isPrefixOf (c :: cs) || charsContain needle cs

/-- Model of JavaScript `hay.includes(needle)`. -/
def strIncludes (hay needle : String) : Bool := charsContain needle.data hay.data

/-- The four filter selections of the UI.  Defaults are the empty search
term and `"all"` for day, track and room. -/
structure FilterState where
  searchTerm : String
  selectedDay : String
  selectedTrack : String
  selectedRoom : String
deriving DecidableEq

/-- The all-default filter state created at startup. -/
def defaultFilterState : FilterState :=
  { searchTerm := "", selectedDay := "all", selectedTrack := "all", selectedRoom := "all" }

/-- First stage of `filterSessions`: substring match of the lower-cased
search term against `searchText`; an empty term passes everything. -/
def searchStage (searchTerm : String) (filtered : List IndexedSession) : List IndexedSession :=
  if searchTerm ≠ "" then
    filtered.filter (fun session => strIncludes session.searchText (jsToLowerCase searchTerm))
  else filtered

/-- Second stage of `filterSessions`: equality of the derived day label of
`slot_start` with the selected day; `"all"` passes everything.  `dayOf`
models `new Date(t).toLocaleDateString('en-US', ...)` in the viewer's
time zone. -/
def dayStage (dayOf : Int → String) (selectedDay : String) (filtered : List IndexedSession) : List IndexedSession :=
  if selectedDay ≠ "all" then
    filtered.filter (fun session => dayOf session.toSession.slot_start == selectedDay)
  else filtered

/-- Third stage of `filterSessions`: strict equality of `track` with the
selected track (an absent track matches no selected track); `"all"`
passes everything. -/
def trackStage (selectedTrack : String) (filtered : List IndexedSession) : List IndexedSession :=
  if selectedTrack ≠ "all" then
    filtered.filter (fun session => session.toSession.track == some selectedTrack)
  else filtered

/-- Fourth stage of `filterSessions`: strict equality of `slot_room?.name`
with the selected room (an absent room matches nothing); `"all"` passes
everything. -/
def roomStage (selectedRoom : String) (filtered : List IndexedSession) : List IndexedSession :=
  if selectedRoom ≠ "all" then
    filtered.filter (fun session => session.toSession.slot_room.map Room.name == some selectedRoom)
  else filtered

/-- `filterSessions`: the search, day, track and room stages applied in
that order, exactly as the successive reassignments of `filtered` in the
source. -/
def filterSessions (dayOf : Int → String) (fs : FilterState) (searchIndex : List IndexedSession) : List IndexedSession :=
  roomStage fs.selectedRoom
    (trackStage fs.selectedTrack
      (dayStage dayOf fs.selectedDay
        (searchStage fs.searchTerm searchIndex)))

/-- `toggleBookmark`: remove every occurrence of `sessionId` when present,
append it at the end when absent. -/
def toggleBookmark (prev : List String) (sessionId : String) : List String :=
  if prev.contains sessionId then prev.filter (fun id => id ≠ sessionId)
  else prev ++ [sessionId]

/-- One step of the `forEach` in `groupedSessions`: push the session at
the end of its day bucket (creating the bucket at the end on first use,
as JavaScript object keys preserve insertion order). -/
def insertSession (grouped : List (String × List Session)) (day : String) (session : Session) : List (String × List Session) :=
  match grouped with
  | [] => [(day, [session])]
  | (d, bucket) :: rest =>
    if d = day then (d, bucket ++ [session]) :: rest
    else (d, bucket) :: insertSession rest day session

/-- The ordering used by the in-bucket sort
(`new Date(a.slot_start) - new Date(b.slot_start)`). -/
def slotLe (a b : Session) : Bool := decide (a.slot_start ≤ b.slot_start)

/-- Result of `groupedSessions`: the day-keyed buckets in insertion order
and the `hasCurrentSession` flag. -/
structure GroupResult where
  grouped : List (String × List Session)
  hasCurrentSession : Bool
deriving DecidableEq

/-- Body of the `forEach` in `groupedSessions`: extend the buckets and
accumulate the live-session flag
(`startTime <= currentTime && endTime >= currentTime`). -/
def groupStep (dayOf : Int → String) (now : Int) (acc : List (String × List Session) × Bool) (session : Session) : List (String × List Session) × Bool :=
  (insertSession acc.1 (dayOf session.slot_start) session,
   acc.2 || (decide (session.slot_start ≤ now) && decide (now ≤ session.slot_end)))

/-- `groupedSessions`: bucket the chosen sessions by day label, record
whether any of them is live at `now`, then sort each bucket ascending by
`slot_start` with the stable JavaScript array sort (modelled by the
stable `List.mergeSort`). -/
def groupedSessions (dayOf : Int → String) (now : Int) (sessionsToGroup : List Session) : GroupResult :=
  let pass := sessionsToGroup.foldl (groupStep dayOf now) ([], false)
  { grouped := pass.1.map (fun p => (p.1, p.2.mergeSort slotLe)),
    hasCurrentSession := pass.2 }

/-- Selection of the sequence fed to the grouping, from the view mode:
the filtered list in schedule view, the bookmarked subset of all sessions
in bookmarks view. -/
def sessionsToGroup (view : String) (filteredSessions : List Session) (sessions : List Session) (bookmarkedSessions : List String) : List Session :=
  if view = "schedule" then filteredSessions
  else sessions.filter (fun session => bookmarkedSessions.contains session.id)

/-- Generic shape of every filter stage: an `if` that either filters the
list or passes it through, which always yields a sublist. -/
theorem ite_filter_sublist {α : Type} {c : Prop} [Decidable c] (p : α → Bool) (l : List α) :
    List.Sublist (if c then l.filter p else l) l := by
  split
  · exact List.filter_sublist l
  · exact List.Sublist.refl l

/-- Sample session with every optional field present (used in witnesses). -/
def sessA : Session :=
  { id := "1", title := "Opening", description := "Welcome", track := some "Core",
    slot_start := 10, slot_end := 20, slot_room := some { name := "Main" },
    speakers := some [{ id := "sp1", name := "Ann", avatar := none }],
    resources_presentation := none, resources_slides := none }

/-- Sample session with every optional field absent (used in witnesses). -/
def sessB : Session :=
  { id := "2", title := "Break", description := "Coffee", track := none,
    slot_start := 30, slot_end := 40, slot_room := none, speakers := none,
    resources_presentation := none, resources_slides := none }

/-- Sample session whose only absent optional field is the room (used in
witnesses). -/
def sessC : Session :=
  { id := "3", title := "Talk", description := "Demo", track := some "Apps",
    slot_start := 50, slot_end := 60, slot_room := none,
    speakers := some [{ id := "sp2", name := "Bo", avatar := none }],
    resources_presentation := none, resources_slides := none }

/-- Sample app state around a given session list (used in witnesses). -/
def sampleState (ss : List Json) : AppState :=
  { sessions := ss, filteredSessions := [], updateStats := { added := 0, modified := 0, unchanged := 0 },
    isUpdateDialogOpen := false, isLoading := false, isRefreshing := false,
    searchTerm := "", selectedDay := "all", selectedTrack := "all", selectedRoom := "all" }

/-- C1 counterexample: two raw session records with the same `id` and the
same canonical structural content, differing only in object key order,
are classified as modified by the diff, not as unchanged, because the
comparison is on the `JSON.stringify` text. -/
theorem classifySession_key_order_counterexample :
    getId (Json.jobj [("title", Json.jstr "t"), ("id", Json.jstr "s1")]) =
      getId (Json.jobj [("id", Json.jstr "s1"), ("title", Json.jstr "t")]) ∧
    canon (Json.jobj [("title", Json.jstr "t"), ("id", Json.jstr "s1")]) =
      canon (Json.jobj [("id", Json.jstr "s1"), ("title", Json.jstr "t")]) ∧
    classifySession [Json.jobj [("id", Json.jstr "s1"), ("title", Json.jstr "t")]]
      (Json.jobj [("title", Json.jstr "t"), ("id", Json.jstr "s1")]) = .modified :=
  ⟨rfl, rfl, rfl⟩

/-- C1 (amended): a new session whose `id` is found in the old list is
classified as modified exactly when its `JSON.stringify` serialization
differs from the old session's, and as unchanged exactly when the two
serializations are equal — serialized-text comparison, not canonical
structural comparison. -/
theorem classifySession_modified_iff_stringify_ne (oldSessions : List Json)
    (session existingSession : Json)
    (h : oldSessions.find? (fun s => getId s == getId session) = some existingSession) :
    (classifySession oldSessions session = .modified ↔
      stringify existingSession ≠ stringify session) ∧
    (classifySession oldSessions session = .unchanged ↔
      stringify existingSession = stringify session) := by
  unfold classifySession
  rw [h]
  by_cases hs : stringify existingSession = stringify session <;> simp [hs]

/-- Witness for the amended C1 theorem at a concrete old list and session. -/
theorem classifySession_modified_iff_stringify_ne_witness :
    (classifySession [Json.jobj [("id", Json.jstr "a")]]
        (Json.jobj [("id", Json.jstr "a"), ("x", Json.jnum 1)]) = .modified ↔
      stringify (Json.jobj [("id", Json.jstr "a")]) ≠
        stringify (Json.jobj [("id", Json.jstr "a"), ("x", Json.jnum 1)])) ∧
    (classifySession [Json.jobj [("id", Json.jstr "a")]]
        (Json.jobj [("id", Json.jstr "a"), ("x", Json.jnum 1)]) = .unchanged ↔
      stringify (Json.jobj [("id", Json.jstr "a")]) =
        stringify (Json.jobj [("id", Json.jstr "a"), ("x", Json.jnum 1)])) :=
  classifySession_modified_iff_stringify_ne
    [Json.jobj [("id", Json.jstr "a")]]
    (Json.jobj [("id", Json.jstr "a"), ("x", Json.jnum 1)])
    (Json.jobj [("id", Json.jstr "a")]) rfl

/-- C2: on a successful fetch the diff is skipped entirely when the held
session list is empty — the statistics and the dialog flag are left
untouched — and the statistics and dialog are produced exactly when the
held list is non-empty. -/
theorem fetchData_first_load_skips_diff (st : AppState) (showRefreshing : Bool)
    (newSessions : List Json) :
    (st.sessions = [] →
      (fetchData st showRefreshing (some newSessions)).updateStats = st.updateStats ∧
      (fetchData st showRefreshing (some newSessions)).isUpdateDialogOpen = st.isUpdateDialogOpen) ∧
    (st.sessions ≠ [] →
      (fetchData st showRefreshing (some newSessions)).isUpdateDialogOpen = true ∧
      (fetchData st showRefreshing (some newSessions)).updateStats =
        computeStats st.sessions newSessions) := by
  constructor
  · intro h
    simp [fetchData, h]
    split <;> simp [h]
  · intro h
    have hlen : 0 < st.sessions.length := List.length_pos.mpr h
    simp [fetchData]
    split <;> simp [hlen]

/-- Witness for C2 at a concrete empty and non-empty previous list. -/
theorem fetchData_first_load_skips_diff_witness :
    ((fetchData (sampleState []) false (some [Json.jnull])).updateStats =
        (sampleState []).updateStats ∧
      (fetchData (sampleState []) false (some [Json.jnull])).isUpdateDialogOpen =
        (sampleState []).isUpdateDialogOpen) ∧
    ((fetchData (sampleState [Json.jnull]) false (some [])).isUpdateDialogOpen = true ∧
      (fetchData (sampleState [Json.jnull]) false (some [])).updateStats =
        computeStats (sampleState [Json.jnull]).sessions []) :=
  ⟨(fetchData_first_load_skips_diff (sampleState []) false [Json.jnull]).1 rfl,
   (fetchData_first_load_skips_diff (sampleState [Json.jnull]) false []).2 (by simp [sampleState])⟩

/-- C3: the filter pipeline applies the search, day, track and room
stages in that fixed order, each stage narrowing (a sublist of) the
previous result, the whole output is a sublist of the indexed input
(relative order preserved), and with every filter field at its default
the output is exactly the input. -/
theorem filterSessions_order_and_defaults (dayOf : Int → String) (fs : FilterState)
    (idx : List IndexedSession) :
    filterSessions dayOf defaultFilterState idx = idx ∧
    List.Sublist (searchStage fs.searchTerm idx) idx ∧
    List.Sublist (dayStage dayOf fs.selectedDay (searchStage fs.searchTerm idx))
      (searchStage fs.searchTerm idx) ∧
    List.Sublist
      (trackStage fs.selectedTrack (dayStage dayOf fs.selectedDay (searchStage fs.searchTerm idx)))
      (dayStage dayOf fs.selectedDay (searchStage fs.searchTerm idx)) ∧
    List.Sublist (filterSessions dayOf fs idx)
      (trackStage fs.selectedTrack (dayStage dayOf fs.selectedDay (searchStage fs.searchTerm idx))) ∧
    List.Sublist (filterSessions dayOf fs idx) idx := by
  have h1 : List.Sublist (searchStage fs.searchTerm idx) idx := ite_filter_sublist _ _
  have h2 : List.Sublist (dayStage dayOf fs.selectedDay (searchStage fs.searchTerm idx))
      (searchStage fs.searchTerm idx) := ite_filter_sublist _ _
  have h3 : List.Sublist
      (trackStage fs.selectedTrack (dayStage dayOf fs.selectedDay (searchStage fs.searchTerm idx)))
      (dayStage dayOf fs.selectedDay (searchStage fs.searchTerm idx)) := ite_filter_sublist _ _
  have h4 : List.Sublist (filterSessions dayOf fs idx)
      (trackStage fs.selectedTrack
        (dayStage dayOf fs.selectedDay (searchStage fs.searchTerm idx))) := ite_filter_sublist _ _
  refine ⟨?_, h1, h2, h3, h4, (((h4.trans h3).trans h2).trans h1)⟩
  simp [filterSessions, defaultFilterState, searchStage, dayStage, trackStage, roomStage]

/-- C4: the search index build preserves the session list (same length,
same order, same sessions), every produced `searchText` is exactly the
lower-cased title, description, track default and space-joined
lower-cased speaker names joined by single spaces, and therefore contains
the lower-cased title as a substring. -/
theorem createSearchIndex_shape (S : List Session) :
    (createSearchIndex S).map IndexedSession.toSession = S ∧
    ∀ x ∈ createSearchIndex S,
      x.searchText =
        jsToLowerCase x.toSession.title ++ " " ++ jsToLowerCase x.toSession.description ++ " " ++
        jsToLowerCase (x.toSession.track.getD "") ++ " " ++
        jsJoin " " ((x.toSession.speakers.getD []).map (fun s => jsToLowerCase s.name)) ∧
      ∃ pre post, x.searchText = pre ++ jsToLowerCase x.toSession.title ++ post := by
  constructor
  · simp [createSearchIndex, Function.comp_def]
  · intro x hx
    simp only [createSearchIndex, List.mem_map] at hx
    obtain ⟨s, _, rfl⟩ := hx
    refine ⟨rfl, "", ?_⟩
    refine ⟨" " ++ jsToLowerCase s.description ++ " " ++ jsToLowerCase (s.track.getD "") ++ " " ++
      jsJoin " " ((s.speakers.getD []).map (fun sp => jsToLowerCase sp.name)), ?_⟩
    simp [buildSearchText, String.append_assoc]

/-- Witness for C4 at a one-element session list. -/
theorem createSearchIndex_shape_witness :
    (createSearchIndex [sessA]).map IndexedSession.toSession = [sessA] ∧
    ((⟨sessA, buildSearchText sessA⟩ : IndexedSession).searchText =
        jsToLowerCase sessA.title ++ " " ++ jsToLowerCase sessA.description ++ " " ++
        jsToLowerCase (sessA.track.getD "") ++ " " ++
        jsJoin " " ((sessA.speakers.getD []).map (fun s => jsToLowerCase s.name)) ∧
      ∃ pre post,
        (⟨sessA, buildSearchText sessA⟩ : IndexedSession).searchText =
          pre ++ jsToLowerCase sessA.title ++ post) :=
  ⟨(createSearchIndex_shape [sessA]).1,
   (createSearchIndex_shape [sessA]).2 ⟨sessA, buildSearchText sessA⟩
     (by simp [createSearchIndex])⟩

/-- C7: `toggleBookmark` adds the id when absent, removes it when
present, never changes the membership of any other id, and toggling the
same id twice restores the original membership of every id. -/
theorem toggleBookmark_toggle_and_involution (prev : List String) (sessionId x : String) :
    (sessionId ∉ prev → sessionId ∈ toggleBookmark prev sessionId) ∧
    (sessionId ∈ prev → sessionId ∉ toggleBookmark prev sessionId) ∧
    (x ≠ sessionId → (x ∈ toggleBookmark prev sessionId ↔ x ∈ prev)) ∧
    (x ∈ toggleBookmark (toggleBookmark prev sessionId) sessionId ↔ x ∈ prev) := by
  by_cases h : sessionId ∈ prev
  · refine ⟨fun hc => absurd h hc, ?_, ?_, ?_⟩
    · intro _
      simp [toggleBookmark, h, List.mem_filter]
    · intro hx
      simp [toggleBookmark, h, List.mem_filter, hx]
    · have h1 : toggleBookmark prev sessionId = prev.filter (fun id => id ≠ sessionId) := by
        simp [toggleBookmark, h]
      have h2 : sessionId ∉ prev.filter (fun id => id ≠ sessionId) := by
        simp [List.mem_filter]
      rw [h1]
      have h3 : toggleBookmark (prev.filter (fun id => id ≠ sessionId)) sessionId =
          prev.filter (fun id => id ≠ sessionId) ++ [sessionId] := by
        simp only [toggleBookmark, ite_eq_right_iff]
        intro hc
        exact absurd (List.elem_iff.mp hc) h2
      rw [h3]
      by_cases hx : x = sessionId
      · subst hx
        simp [h]
      · simp [List.mem_append, List.mem_filter, hx]
  · refine ⟨?_, fun hc => absurd hc h, ?_, ?_⟩
    · intro _
      simp [toggleBookmark, h]
    · intro hx
      simp [toggleBookmark, h, List.mem_append, hx]
    · have h1 : toggleBookmark prev sessionId = prev ++ [sessionId] := by
        simp only [toggleBookmark, ite_eq_right_iff]
        intro hc
        exact absurd (List.elem_iff.mp hc) h
      have h2 : sessionId ∈ prev ++ [sessionId] := by simp
      have h3 : toggleBookmark (prev ++ [sessionId]) sessionId =
          (prev ++ [sessionId]).filter (fun id => id ≠ sessionId) := by
        simp [toggleBookmark, h2]
      rw [h1, h3]
      by_cases hx : x = sessionId
      · subst hx
        simp [List.mem_filter, h]
      · simp [List.mem_filter, List.mem_append, hx]

/-- Witness for C7 at concrete bookmark lists. -/
theorem toggleBookmark_toggle_and_involution_witness :
    ("a" ∈ toggleBookmark ["b"] "a") ∧
    ("b" ∉ toggleBookmark ["b"] "b") ∧
    (("c" ∈ toggleBookmark ["b", "c"] "b") ↔ ("c" ∈ ["b", "c"])) ∧
    (("c" ∈ toggleBookmark (toggleBookmark ["b", "c"] "b") "b") ↔ ("c" ∈ ["b", "c"])) :=
  ⟨(toggleBookmark_toggle_and_involution ["b"] "a" "x").1 (by decide),
   (toggleBookmark_toggle_and_involution ["b"] "b" "x").2.1 (by decide),
   (toggleBookmark_toggle_and_involution ["b", "c"] "b" "c").2.2.1 (by decide),
   (toggleBookmark_toggle_and_involution ["b", "c"] "b" "c").2.2.2⟩

/-- C8: when the fetch fails, the held session list, the visible filtered
list, the update statistics, the dialog flag and the filter selections
are all left untouched; only the two loading flags are reset. -/
theorem fetchData_failure_leaves_sessions_untouched (st : AppState) (showRefreshing : Bool) :
    (fetchData st showRefreshing none).sessions = st.sessions ∧
    (fetchData st showRefreshing none).filteredSessions = st.filteredSessions ∧
    (fetchData st showRefreshing none).updateStats = st.updateStats ∧
    (fetchData st showRefreshing none).isUpdateDialogOpen = st.isUpdateDialogOpen ∧
    (fetchData st showRefreshing none).searchTerm = st.searchTerm ∧
    (fetchData st showRefreshing none).selectedDay = st.selectedDay ∧
    (fetchData st showRefreshing none).selectedTrack = st.selectedTrack ∧
    (fetchData st showRefreshing none).selectedRoom = st.selectedRoom ∧
    (fetchData st showRefreshing none).isLoading = false ∧
    (fetchData st showRefreshing none).isRefreshing = false := by
  simp only [fetchData]
  split <;> simp

/-- C9: each optional field is defaulted independently when absent: with
`track` absent the `searchText` uses the empty string for the track part;
with `speakers` absent it uses the empty speaker contribution; with
`track` absent a concrete track filter rejects the session (no match, no
failure); with `slot_room` absent a concrete room filter rejects it (no
room match, no failure); every session, whatever its optional fields, is
bucketed normally by the grouping engine; and the resource-link fields
are never consulted by the search-index build. -/
theorem missing_optional_fields_use_defaults (s : Session) :
    (s.track = none →
      buildSearchText s =
        jsToLowerCase s.title ++ " " ++ jsToLowerCase s.description ++ " " ++ "" ++ " " ++
        jsJoin " " ((s.speakers.getD []).map (fun sp => jsToLowerCase sp.name))) ∧
    (s.speakers = none →
      buildSearchText s =
        jsToLowerCase s.title ++ " " ++ jsToLowerCase s.description ++ " " ++
        jsToLowerCase (s.track.getD "") ++ " " ++ "") ∧
    (s.track = none → ∀ selectedTrack, selectedTrack ≠ "all" →
      trackStage selectedTrack (createSearchIndex [s]) = []) ∧
    (s.slot_room = none → ∀ selectedRoom, selectedRoom ≠ "all" →
      roomStage selectedRoom (createSearchIndex [s]) = []) ∧
    (∀ dayOf now, (groupedSessions dayOf now [s]).grouped = [(dayOf s.slot_start, [s])]) ∧
    (∀ rp rs,
      buildSearchText
        { s with resources_presentation := rp, resources_slides := rs } = buildSearchText s) := by
  refine ⟨?_, ?_, ?_, ?_, ?_, ?_⟩
  · intro ht
    rw [buildSearchText, ht]
    rfl
  · intro hsp
    rw [buildSearchText, hsp]
    rfl
  · intro ht selectedTrack hne
    simp [trackStage, createSearchIndex, hne, ht]
  · intro hr selectedRoom hne
    simp [roomStage, createSearchIndex, hne, hr]
  · intro dayOf now
    simp [groupedSessions, groupStep, insertSession]
  · intro rp rs
    rfl

/-- Witness for C9 at two concrete sessions, one with all optional
fields absent and one with only the room absent. -/
theorem missing_optional_fields_use_defaults_witness :
    buildSearchText sessB =
      jsToLowerCase sessB.title ++ " " ++ jsToLowerCase sessB.description ++ " " ++ "" ++ " " ++
      jsJoin " " ((sessB.speakers.getD []).map (fun sp => jsToLowerCase sp.name)) ∧
    buildSearchText sessB =
      jsToLowerCase sessB.title ++ " " ++ jsToLowerCase sessB.description ++ " " ++
      jsToLowerCase (sessB.track.getD "") ++ " " ++ "" ∧
    trackStage "Core" (createSearchIndex [sessB]) = [] ∧
    roomStage "Main" (createSearchIndex [sessC]) = [] ∧
    (groupedSessions (fun _ => "Mon") 0 [sessC]).grouped = [("Mon", [sessC])] ∧
    buildSearchText
      { sessC with resources_presentation := some "u", resources_slides := none } =
      buildSearchText sessC :=
  ⟨(missing_optional_fields_use_defaults sessB).1 rfl,
   (missing_optional_fields_use_defaults sessB).2.1 rfl,
   (missing_optional_fields_use_defaults sessB).2.2.1 rfl "Core" (by decide),
   (missing_optional_fields_use_defaults sessC).2.2.2.1 rfl "Main" (by decide),
   (missing_optional_fields_use_defaults sessC).2.2.2.2.1 (fun _ => "Mon") 0,
   (missing_optional_fields_use_defaults sessC).2.2.2.2.2 (some "u") none⟩

/-- C10: on a successful fetch the session list and the visible filtered
list are both set to the entire new list, whatever the current filter
selections are; the filter selections themselves are not consulted or
changed by the replace. -/
theorem fetchData_success_installs_full_list (st : AppState) (showRefreshing : Bool)
    (newSessions : List Json) :
    (fetchData st showRefreshing (some newSessions)).filteredSessions = newSessions ∧
    (fetchData st showRefreshing (some newSessions)).sessions = newSessions ∧
    (fetchData st showRefreshing (some newSessions)).searchTerm = st.searchTerm ∧
    (fetchData st showRefreshing (some newSessions)).selectedDay = st.selectedDay ∧
    (fetchData st showRefreshing (some newSessions)).selectedTrack = st.selectedTrack ∧
    (fetchData st showRefreshing (some newSessions)).selectedRoom = st.selectedRoom := by
  simp only [fetchData]
  split <;> split <;> simp

/-- The bucket part of the grouping fold ignores the live-session flag. -/
theorem groupFold_fst (dayOf : Int → String) (now : Int) (ss : List Session)
    (acc : List (String × List Session) × Bool) :
    (ss.foldl (groupStep dayOf now) acc).1 =
      ss.foldl (fun g session => insertSession g (dayOf session.slot_start) session) acc.1 := by
  induction ss generalizing acc with
  | nil => rfl
  | cons s ss ih => simp only [List.foldl_cons, ih, groupStep]

/-- The flag part of the grouping fold is the disjunction of the
per-session live tests. -/
theorem groupFold_snd (dayOf : Int → String) (now : Int) (ss : List Session)
    (acc : List (String × List Session) × Bool) :
    (ss.foldl (groupStep dayOf now) acc).2 =
      (acc.2 || ss.any (fun s => decide (s.slot_start ≤ now) && decide (now ≤ s.slot_end))) := by
  induction ss generalizing acc with
  | nil => simp
  | cons s ss ih =>
    simp only [List.foldl_cons, ih, groupStep, List.any_cons]
    rw [Bool.or_assoc]

/-- Looking a day up after one insertion: the bucket of that day gains
the session at its end, every other day is untouched. -/
theorem lookup_insertSession (g : List (String × List Session)) (day : String) (s : Session)
    (d : String) :
    (insertSession g day s).lookup d =
      if d = day then some ((g.lookup d).getD [] ++ [s]) else g.lookup d := by
  induction g with
  | nil =>
    by_cases h : d = day
    · subst h
      simp [insertSession, List.lookup_cons]
    · simp [insertSession, List.lookup_cons, beq_false_of_ne h, h]
  | cons p rest ih =>
    obtain ⟨d', b⟩ := p
    by_cases hday : d' = day
    · subst hday
      by_cases hd : d = d'
      · subst hd
        simp [insertSession, List.lookup_cons]
      · simp [insertSession, List.lookup_cons, beq_false_of_ne hd, hd]
    · by_cases hd : d = d'
      · subst hd
        have hne : ¬d = day := fun hc => hday (hc ▸ rfl)
        simp [insertSession, List.lookup_cons, hne]
      · simp [insertSession, List.lookup_cons, hday, beq_false_of_ne hd, hd, ih]

/-- Combination of an existing optional bucket with freshly appended
sessions. -/
def combineBucket (o : Option (List Session)) (l : List Session) : Option (List Session) :=
  match o, l with
  | none, [] => none
  | o, l => some (o.getD [] ++ l)

/-- Appending at least one session always yields a bucket. -/
theorem combineBucket_cons (o : Option (List Session)) (x : Session) (l : List Session) :
    combineBucket o (x :: l) = some (o.getD [] ++ (x :: l)) := by
  cases o <;> rfl

/-- The bucket of day `d` after folding the whole session list: whatever
was there before, followed by exactly the sessions whose day label is
`d`, in input order. -/
theorem lookup_groupInsertFold (dayOf : Int → String) (ss : List Session)
    (g : List (String × List Session)) (d : String) :
    (ss.foldl (fun g session => insertSession g (dayOf session.slot_start) session) g).lookup d
      = combineBucket (g.lookup d) (ss.filter (fun session => dayOf session.slot_start == d)) := by
  induction ss generalizing g with
  | nil =>
    cases h : g.lookup d <;> simp [combineBucket, h]
  | cons s ss ih =>
    rw [List.foldl_cons, ih, lookup_insertSession]
    by_cases hd : d = dayOf s.slot_start
    · have hps : (dayOf s.slot_start == d) = true := by simp [hd]
      rw [if_pos hd, List.filter_cons, hps, if_pos rfl, combineBucket_cons]
      cases hg : g.lookup d <;> simp [combineBucket, hg]
    · have hps : (dayOf s.slot_start == d) = false :=
        beq_false_of_ne (fun hc => hd (hc ▸ rfl))
      rw [if_neg hd, List.filter_cons, hps]
      simp

/-- Inserting a session extends the key list by the day exactly when the
day is new, keeping the existing keys in place. -/
theorem keys_insertSession (g : List (String × List Session)) (day : String) (s : Session) :
    (insertSession g day s).map Prod.fst =
      if day ∈ g.map Prod.fst then g.map Prod.fst else g.map Prod.fst ++ [day] := by
  induction g with
  | nil => simp [insertSession]
  | cons p rest ih =>
    obtain ⟨d', b⟩ := p
    by_cases hday : d' = day
    · subst hday
      simp [insertSession]
    · have hne : ¬day = d' := fun hc => hday (hc ▸ rfl)
      by_cases hmem : day ∈ rest.map Prod.fst <;>
        simp [insertSession, hday, hne, hmem, ih]

/-- Inserting a session preserves distinctness of the day keys. -/
theorem nodupKeys_insertSession (g : List (String × List Session)) (day : String) (s : Session)
    (h : (g.map Prod.fst).Nodup) : ((insertSession g day s).map Prod.fst).Nodup := by
  rw [keys_insertSession]
  split
  · exact h
  · rename_i hmem
    rw [List.nodup_append]
    exact ⟨h, List.nodup_singleton day, by
      intro a ha hb
      rw [List.mem_singleton] at hb
      exact hmem (hb ▸ ha)⟩

/-- The day keys produced by the grouping fold are distinct. -/
theorem nodupKeys_groupInsertFold (dayOf : Int → String) (ss : List Session)
    (g : List (String × List Session)) (h : (g.map Prod.fst).Nodup) :
    ((ss.foldl (fun g session => insertSession g (dayOf session.slot_start) session) g).map
      Prod.fst).Nodup := by
  induction ss generalizing g with
  | nil => exact h
  | cons s ss ih => exact ih _ (nodupKeys_insertSession _ _ _ h)

/-- In an association list with distinct keys, membership determines the
lookup. -/
theorem lookup_of_mem_of_nodupKeys {β : Type} (l : List (String × β)) (d : String) (b : β)
    (hnd : (l.map Prod.fst).Nodup) (hmem : (d, b) ∈ l) : l.lookup d = some b := by
  induction l with
  | nil => cases hmem
  | cons p rest ih =>
    obtain ⟨k, v⟩ := p
    rw [List.map_cons, List.nodup_cons] at hnd
    rcases List.mem_cons.mp hmem with heq | htail
    · obtain ⟨hk, hv⟩ := Prod.mk.injEq .. ▸ heq
      subst hk
      subst hv
      simp [List.lookup_cons]
    · have hdk : ¬d = k := by
        intro hc
        subst hc
        exact hnd.1 (List.mem_map.mpr ⟨(d, b), htail, rfl⟩)
      simp [List.lookup_cons, beq_false_of_ne hdk, ih hnd.2 htail]

/-- Lookup commutes with mapping a function over the values of an
association list. -/
theorem lookup_mapValues {β γ : Type} (f : β → γ) (l : List (String × β)) (d : String) :
    (l.map (fun p => (p.1, f p.2))).lookup d = (l.lookup d).map f := by
  induction l with
  | nil => simp
  | cons p rest ih =>
    obtain ⟨k, v⟩ := p
    by_cases hd : d = k
    · subst hd
      simp [List.lookup_cons]
    · simp [List.lookup_cons, beq_false_of_ne hd, ih]

/-- The in-bucket ordering is transitive. -/
theorem slotLe_trans : ∀ (a b c : Session), slotLe a b → slotLe b c → slotLe a c := by
  intro a b c hab hbc
  simp only [slotLe, decide_eq_true_eq] at *
  omega

/-- The in-bucket ordering is total. -/
theorem slotLe_total : ∀ (a b : Session), slotLe a b || slotLe b a := by
  intro a b
  simp only [slotLe, Bool.or_eq_true, decide_eq_true_eq]
  omega

/-- C6: the `hasCurrentSession` flag of the grouping result is true
exactly when some grouped session is live at the sampled time `now`,
that is `slot_start <= now <= slot_end`. -/
theorem groupedSessions_hasLive_iff (dayOf : Int → String) (now : Int)
    (sessions : List Session) :
    (groupedSessions dayOf now sessions).hasCurrentSession = true ↔
      ∃ s ∈ sessions, s.slot_start ≤ now ∧ now ≤ s.slot_end := by
  simp only [groupedSessions]
  rw [groupFold_snd]
  simp [List.any_eq_true]

/-- C5: every day bucket produced by the grouping engine is sorted
ascending by `slot_start`, and for each start time the sessions of the
bucket having that start time are exactly the sessions of that day in
their original input order (the sort is stable). -/
theorem groupedSessions_buckets_sorted_stable (dayOf : Int → String) (now : Int)
    (sessions : List Session) (d : String) (bucket : List Session)
    (h : (d, bucket) ∈ (groupedSessions dayOf now sessions).grouped) :
    bucket.Pairwise (fun a b => a.slot_start ≤ b.slot_start) ∧
    ∀ t : Int, bucket.filter (fun s => s.slot_start == t) =
      sessions.filter (fun s => dayOf s.slot_start == d && s.slot_start == t) := by
  have hgrouped : (groupedSessions dayOf now sessions).grouped =
      (sessions.foldl (fun g session => insertSession g (dayOf session.slot_start) session)
        []).map (fun p => (p.1, p.2.mergeSort slotLe)) := by
    simp only [groupedSessions]
    rw [groupFold_fst]
  rw [hgrouped] at h
  have hnd : ((sessions.foldl
      (fun g session => insertSession g (dayOf session.slot_start) session) []).map
        Prod.fst).Nodup :=
    nodupKeys_groupInsertFold dayOf sessions [] (by simp)
  have hndm : (((sessions.foldl
      (fun g session => insertSession g (dayOf session.slot_start) session) []).map
        (fun p => (p.1, p.2.mergeSort slotLe))).map Prod.fst).Nodup := by
    rw [List.map_map]
    exact hnd
  have hlk0 := lookup_of_mem_of_nodupKeys _ d bucket hndm h
  have hlk := (lookup_mapValues (fun b => b.mergeSort slotLe)
      (sessions.foldl (fun g session => insertSession g (dayOf session.slot_start) session) [])
      d).symm.trans hlk0
  cases hx : (sessions.foldl
      (fun g session => insertSession g (dayOf session.slot_start) session) []).lookup d with
  | none =>
    rw [hx] at hlk
    simp at hlk
  | some raw =>
    rw [hx] at hlk
    simp only [Option.map_some'] at hlk
    rw [Option.some.injEq] at hlk
    rw [lookup_groupInsertFold, List.lookup_nil] at hx
    have hraw : raw = sessions.filter (fun session => dayOf session.slot_start == d) := by
      cases hfil : sessions.filter (fun session => dayOf session.slot_start == d) with
      | nil =>
        rw [hfil] at hx
        exact absurd hx (by simp [combineBucket])
      | cons x l =>
        rw [hfil, combineBucket_cons] at hx
        simpa using hx.symm
    subst hlk
    constructor
    · exact (List.sorted_mergeSort slotLe_trans slotLe_total raw).imp
        (fun hab => by simpa [slotLe, decide_eq_true_eq] using hab)
    · intro t
      have hpF : (raw.filter (fun s => s.slot_start == t)).Pairwise
          (fun a b => slotLe a b) := by
        apply List.pairwise_of_forall_mem_list
        intro a ha b hb
        rw [List.mem_filter] at ha hb
        have ha2 : a.slot_start = t := by simpa using ha.2
        have hb2 : b.slot_start = t := by simpa using hb.2
        simp [slotLe, ha2, hb2]
      have hsub : (raw.filter (fun s => s.slot_start == t)).Sublist
          (raw.mergeSort slotLe) :=
        List.sublist_mergeSort slotLe_trans slotLe_total hpF (List.filter_sublist raw)
      have hperm : ((raw.mergeSort slotLe).filter (fun s => s.slot_start == t)).Perm
          (raw.filter (fun s => s.slot_start == t)) :=
        (List.mergeSort_perm raw slotLe).filter (fun s => s.slot_start == t)
      have hidem : ((raw.filter (fun s => s.slot_start == t)).filter
          (fun s => s.slot_start == t)) = raw.filter (fun s => s.slot_start == t) := by
        rw [List.filter_filter]
        apply List.filter_congr
        intro a _
        rw [Bool.and_self]
      have hsub2 : (raw.filter (fun s => s.slot_start == t)).Sublist
          ((raw.mergeSort slotLe).filter (fun s => s.slot_start == t)) := by
        have hf := hsub.filter (fun s => s.slot_start == t)
        rwa [hidem] at hf
      have heq : raw.filter (fun s => s.slot_start == t) =
          (raw.mergeSort slotLe).filter (fun s => s.slot_start == t) :=
        hsub2.eq_of_length hperm.length_eq.symm
      rw [← heq, hraw, List.filter_filter]
      apply List.filter_congr
      intro a _
      rw [Bool.and_comm]

/-- Witness for C5 at a concrete two-session single-day list. -/
theorem groupedSessions_buckets_sorted_stable_witness :
    List.Pairwise (fun a b => a.slot_start ≤ b.slot_start) [sessA, sessB] ∧
    [sessA, sessB].filter (fun s => s.slot_start == 10) =
      [sessA, sessB].filter (fun s => ("Mon" == "Mon") && s.slot_start == 10) := by
  have hsorted : List.Pairwise (fun a b => slotLe a b) [sessA, sessB] := by
    simp [List.pairwise_cons, slotLe, sessA, sessB]
  have hms : List.mergeSort [sessA, sessB] slotLe = [sessA, sessB] :=
    List.mergeSort_of_sorted hsorted
  have hmem : ("Mon", [sessA, sessB]) ∈
      (groupedSessions (fun _ => "Mon") 0 [sessA, sessB]).grouped := by
    simp [groupedSessions, groupStep, insertSession, hms]
  have h := groupedSessions_buckets_sorted_stable (fun _ => "Mon") 0 [sessA, sessB]
    "Mon" [sessA, sessB] hmem
  exact ⟨h.1, h.2 10⟩
